import Mathlib

/-!
Verification of the `RequestQueue` class of
`src/packages/client-arena/src/base.ts` (lines 21-69).

The queue stores zero-argument asynchronous thunks (`(() => Promise<any>)[]`).
`add` wraps a caller-supplied operation in a closure that catches any error
and resolves/rejects the caller's promise, pushes the closure, and triggers
`processQueue`.  `processQueue` is guarded by a `processing` flag, shifts the
head thunk, awaits it, on a thrown error unshifts the same thunk back and
awaits `exponentialBackoff(queue.length)`, and after every iteration awaits
`randomDelay()`.

The embedding below is shallow:
* `Outcome` models a promise settling (fulfilled value or thrown error).
* A `WorkItem` models one queued thunk; since re-executing the same thunk
  re-invokes the underlying effectful operation, its behaviour is a function
  from the number of previous invocations (`attempt`) to an `Outcome`.
* `RequestQueue.processQueue` is the drain loop run to completion with no
  concurrent submissions, fuelled to stay total; it returns the emitted
  event trace, the remaining queue, and the next random-stream index.
* `Math.random()` is modelled as a stream of rationals in `[0, 1)`;
  `Math.floor` is `Int.floor`.  `Math.pow(2, n) * 1000` is exact for the
  relevant range, so it is modelled as `2 ^ n * 1000` over `Nat`.
* The interleaved semantics (submissions racing the drain loop at its
  `await` suspension points) is the transition system `RequestQueue.Step`
  over `RequestQueue.Sys`; the JavaScript host runs code atomically between
  suspension points, which is reflected in the granularity of the steps.
-/

namespace RequestQueue

/-- A promise settling: fulfilled with a value, or rejected / thrown error. -/
inductive Outcome (α ε : Type) where
  | ok : α → Outcome α ε
  | err : ε → Outcome α ε
deriving DecidableEq, Repr

/-- The caller-visible settlement of the promise returned by `add`:
`resolve(result)` or `reject(error)` inside the wrapper closure. -/
inductive Settlement (α ε : Type) where
  | resolved : α → Settlement α ε
  | rejected : ε → Settlement α ε
deriving DecidableEq, Repr

/-- One queued thunk (`() => Promise<any>`).  `id` is positional identity,
`behavior n` is the outcome of the thunk's `(n+1)`-th invocation, `attempt`
counts how often the loop has already invoked this thunk. -/
structure WorkItem (α ε : Type) where
  id : Nat
  behavior : Nat → Outcome α ε
  attempt : Nat

/-- Events emitted by the drain loop, in order. -/
inductive Event (α ε : Type) where
  | exec : Nat → Event α ε
  | done : Nat → α → Event α ε
  | threw : Nat → ε → Event α ε
  | backoff : Nat → Event α ε
  | pace : ℤ → Event α ε
deriving DecidableEq, Repr

/-- The method `exponentialBackoff` (base.ts lines 60-63): delay of
`Math.pow(2, retryCount) * 1000` milliseconds. -/
def exponentialBackoff (retryCount : Nat) : Nat :=
  2 ^ retryCount * 1000

/-- The method `randomDelay` (base.ts lines 65-68): delay of
`Math.floor(Math.random() * 2000) + 1500` milliseconds, where `r` stands for
the `Math.random()` sample in `[0, 1)`. -/
def randomDelay (r : ℚ) : ℤ :=
  ⌊r * 2000⌋ + 1500

/-- The wrapper closure pushed by `add` (base.ts lines 27-34):
`try { resolve(await request()) } catch (e) { reject(e) }`.
Both branches complete normally, so the thunk's outcome is `.ok` either way;
the value records which of `resolve`/`reject` was invoked. -/
def wrap (id : Nat) (op : Nat → Outcome α ε) : WorkItem (Settlement α ε) ε :=
  { id := id
    attempt := 0
    behavior := fun n =>
      match op n with
      | .ok v => .ok (.resolved v)
      | .err e => .ok (.rejected e) }

/-- The wrapper `wrap` applied to an `(id, operation)` pair. -/
def wrapPair (p : Nat × (Nat → Outcome α ε)) : WorkItem (Settlement α ε) ε :=
  wrap p.1 p.2

/-- The drain loop of `processQueue` (base.ts lines 45-55), run with no
concurrent submissions.  `rand` is the `Math.random()` stream, `rIdx` the
next stream index, the first `Nat` is fuel (the loop itself has no bound, so
totality is by fuel; running out of fuel stops with the queue as is).
Per iteration: shift the head, execute it; on `.ok` emit the execution events
then the pacing delay; on `.err` unshift the same item (next invocation),
emit the backoff keyed to the queue length after reinsertion, then the
pacing delay (which the source runs after the `try`/`catch`, i.e. in both
branches).  Returns (trace, remaining queue, next random index). -/
def processQueue (rand : Nat → ℚ) :
    Nat → Nat → List (WorkItem α ε) →
    List (Event α ε) × List (WorkItem α ε) × Nat
  | 0, rIdx, q => ([], q, rIdx)
  | _ + 1, rIdx, [] => ([], [], rIdx)
  | fuel + 1, rIdx, it :: rest =>
    match it.behavior it.attempt with
    | .ok v =>
      let r := processQueue rand fuel (rIdx + 1) rest
      (.exec it.id :: .done it.id v :: .pace (randomDelay (rand rIdx)) :: r.1,
       r.2)
    | .err e =>
      let q1 := { it with attempt := it.attempt + 1 } :: rest
      let r := processQueue rand fuel (rIdx + 1) q1
      (.exec it.id :: .threw it.id e ::
         .backoff (exponentialBackoff q1.length) ::
         .pace (randomDelay (rand rIdx)) :: r.1,
       r.2)

/-- Ids of items the loop started executing, in order. -/
def execOrder (tr : List (Event α ε)) : List Nat :=
  tr.filterMap fun ev =>
    match ev with
    | .exec i => some i
    | _ => none

/-- Caller-visible promise settlements, in order, for wrapped items. -/
def settlements (tr : List (Event (Settlement α ε) ε2)) :
    List (Nat × Settlement α ε) :=
  tr.filterMap fun ev =>
    match ev with
    | .done i s => some (i, s)
    | _ => none

/-- Ids whose promises resolved (fulfilled), in order. -/
def resolveOrder (tr : List (Event (Settlement α ε) ε2)) : List Nat :=
  tr.filterMap fun ev =>
    match ev with
    | .done i (.resolved _) => some i
    | _ => none

/-- Backoff delays emitted, in order. -/
def backoffs (tr : List (Event α ε)) : List Nat :=
  tr.filterMap fun ev =>
    match ev with
    | .backoff d => some d
    | _ => none

/-- Thrown-into-the-loop errors observed by the `catch` branch, in order. -/
def throws (tr : List (Event α ε)) : List (Nat × ε) :=
  tr.filterMap fun ev =>
    match ev with
    | .threw i e => some (i, e)
    | _ => none

/-- Pacing delays emitted, in order. -/
def paces (tr : List (Event α ε)) : List ℤ :=
  tr.filterMap fun ev =>
    match ev with
    | .pace d => some d
    | _ => none

/-!
Interleaved semantics.  `processQueue` above runs the drain loop to
completion with no concurrent activity; the transition system below also
models submissions arriving while the loop is suspended at one of its
`await` points.  A `Phase` is the continuation of one `processQueue`
invocation that passed the `processing` guard; the JavaScript host runs
the code between two suspension points atomically, and each `Step`
constructor is one such atomic block.
-/

/-- The continuation of one active `processQueue` invocation:
at the top of the `while` loop; awaiting the shifted item's thunk;
awaiting the backoff delay; or awaiting the pacing delay. -/
inductive Phase (α ε : Type) where
  | ready : Phase α ε
  | running : WorkItem α ε → Phase α ε
  | backingOff : Phase α ε
  | pacing : Phase α ε

/-- Whether a phase is currently executing a work item. -/
def Phase.isRunning : Phase α ε → Bool
  | .running _ => true
  | _ => false

/-- The mutable state of one `RequestQueue` object plus the set of live
`processQueue` invocations (`loops`). -/
structure Sys (α ε : Type) where
  queue : List (WorkItem α ε)
  processing : Bool
  loops : List (Phase α ε)

/-- A freshly constructed queue: empty, not processing, no live loop. -/
def Sys.start : Sys α ε :=
  { queue := [], processing := false, loops := [] }

/-- The synchronous part of `add` (base.ts lines 25-37) together with the
prologue of the `processQueue` call it makes: push the wrapped item, then,
since the queue is now non-empty, the guard reduces to the `processing`
flag — if it is set, return without spawning a loop; otherwise set it and
enter the loop (a new live `Phase.ready`). -/
def Sys.add (s : Sys α ε) (it : WorkItem α ε) : Sys α ε :=
  if s.processing then
    { queue := s.queue ++ [it], processing := true, loops := s.loops }
  else
    { queue := s.queue ++ [it], processing := true,
      loops := s.loops ++ [Phase.ready] }

/-- One atomic block of execution. -/
inductive Step : Sys α ε → Sys α ε → Prop where
  /-- A caller invokes `add` (with `processQueue`'s synchronous prologue). -/
  | submit (s : Sys α ε) (it : WorkItem α ε) : Step s (s.add it)
  /-- A `ready` loop finds the queue empty: the `while` exits, the flag is
  cleared, the invocation ends. -/
  | loopExit (s : Sys α ε) (pre post : List (Phase α ε)) :
      s.queue = [] → s.loops = pre ++ Phase.ready :: post →
      Step s { queue := s.queue, processing := false, loops := pre ++ post }
  /-- A `ready` loop finds the queue non-empty: shift the head and start
  awaiting its thunk. -/
  | loopShift (s : Sys α ε) (pre post : List (Phase α ε))
      (it : WorkItem α ε) (rest : List (WorkItem α ε)) :
      s.queue = it :: rest → s.loops = pre ++ Phase.ready :: post →
      Step s { queue := rest, processing := s.processing,
               loops := pre ++ Phase.running it :: post }
  /-- The awaited thunk completes normally: fall through to `randomDelay`. -/
  | runOk (s : Sys α ε) (pre post : List (Phase α ε))
      (it : WorkItem α ε) (v : α) :
      s.loops = pre ++ Phase.running it :: post →
      it.behavior it.attempt = .ok v →
      Step s { queue := s.queue, processing := s.processing,
               loops := pre ++ Phase.pacing :: post }
  /-- The awaited thunk throws: unshift the same item and start awaiting
  `exponentialBackoff`. -/
  | runErr (s : Sys α ε) (pre post : List (Phase α ε))
      (it : WorkItem α ε) (e : ε) :
      s.loops = pre ++ Phase.running it :: post →
      it.behavior it.attempt = .err e →
      Step s { queue := { it with attempt := it.attempt + 1 } :: s.queue,
               processing := s.processing,
               loops := pre ++ Phase.backingOff :: post }
  /-- The backoff timer fires: fall through to `randomDelay`. -/
  | backoffDone (s : Sys α ε) (pre post : List (Phase α ε)) :
      s.loops = pre ++ Phase.backingOff :: post →
      Step s { queue := s.queue, processing := s.processing,
               loops := pre ++ Phase.pacing :: post }
  /-- The pacing timer fires: back to the top of the `while` loop. -/
  | paceDone (s : Sys α ε) (pre post : List (Phase α ε)) :
      s.loops = pre ++ Phase.pacing :: post →
      Step s { queue := s.queue, processing := s.processing,
               loops := pre ++ Phase.ready :: post }

/-- States reachable from a freshly constructed queue. -/
inductive Reach : Sys α ε → Prop where
  | start : Reach Sys.start
  | step (s t : Sys α ε) : Reach s → Step s t → Reach t

/-- The inductive invariant: at most one live loop, the `processing` flag
tracks exactly whether a loop is live, and a non-empty queue implies the
flag is set. -/
def Inv (s : Sys α ε) : Prop :=
  s.loops.length ≤ 1 ∧ (s.processing = true ↔ s.loops ≠ []) ∧
    (s.queue ≠ [] → s.processing = true)

/-- A list of length at most one that contains an element is a singleton. -/
theorem short_split (pre post : List γ) (x : γ)
    (hlen : (pre ++ x :: post).length ≤ 1) : pre = [] ∧ post = [] := by
  have h1 : pre.length + (post.length + 1) ≤ 1 := by
    simpa [List.length_append] using hlen
  have hp : pre.length = 0 := by omega
  have hq : post.length = 0 := by omega
  exact ⟨List.length_eq_zero.mp hp, List.length_eq_zero.mp hq⟩

/-- The invariant holds in the start state. -/
theorem inv_start : Inv (Sys.start : Sys α ε) := by
  refine ⟨by simp [Sys.start], ?_, ?_⟩ <;> simp [Sys.start]

/-- The invariant is preserved by every step. -/
theorem inv_step (s t : Sys α ε) (hs : Inv s) (hst : Step s t) : Inv t := by
  obtain ⟨hlen, hflag, hq⟩ := hs
  cases hst with
  | submit it =>
      unfold Sys.add
      by_cases hp : s.processing = true
      · simp only [hp, if_true]
        refine ⟨hlen, ?_, fun _ => rfl⟩
        simpa using hflag.mp hp
      · have hnil : s.loops = [] := by
          by_contra hne
          exact hp (hflag.mpr hne)
        simp only [if_neg hp, hnil]
        exact ⟨by simp, by simp, fun _ => rfl⟩
  | loopExit pre post hqe hl =>
      obtain ⟨hpre, hpost⟩ := short_split pre post _ (hl ▸ hlen)
      subst hpre; subst hpost
      exact ⟨by simp, by simp, fun h => absurd hqe h⟩
  | loopShift pre post it rest hqe hl =>
      obtain ⟨hpre, hpost⟩ := short_split pre post _ (hl ▸ hlen)
      subst hpre; subst hpost
      have hp : s.processing = true := hq (by simp [hqe])
      refine ⟨by simp, ?_, fun _ => hp⟩
      simp [hp]
  | runOk pre post it v hl hb =>
      obtain ⟨hpre, hpost⟩ := short_split pre post _ (hl ▸ hlen)
      subst hpre; subst hpost
      have hp : s.processing = true := hflag.mpr (by simp [hl])
      exact ⟨by simp, by simp [hp], fun _ => hp⟩
  | runErr pre post it e hl hb =>
      obtain ⟨hpre, hpost⟩ := short_split pre post _ (hl ▸ hlen)
      subst hpre; subst hpost
      have hp : s.processing = true := hflag.mpr (by simp [hl])
      exact ⟨by simp, by simp [hp], fun _ => hp⟩
  | backoffDone pre post hl =>
      obtain ⟨hpre, hpost⟩ := short_split pre post _ (hl ▸ hlen)
      subst hpre; subst hpost
      have hp : s.processing = true := hflag.mpr (by simp [hl])
      exact ⟨by simp, by simp [hp], fun h => hq h⟩
  | paceDone pre post hl =>
      obtain ⟨hpre, hpost⟩ := short_split pre post _ (hl ▸ hlen)
      subst hpre; subst hpost
      have hp : s.processing = true := hflag.mpr (by simp [hl])
      exact ⟨by simp, by simp [hp], fun h => hq h⟩

/-- Every reachable state satisfies the invariant. -/
theorem inv_reach (s : Sys α ε) (h : Reach s) : Inv s := by
  induction h with
  | start => exact inv_start
  | step s t _ hst ih => exact inv_step s t ih hst

/-- Unfolding: a head item whose current invocation completes normally. -/
theorem processQueue_ok (rand : Nat → ℚ) (fuel rIdx : Nat)
    (it : WorkItem α ε) (rest : List (WorkItem α ε)) (v : α)
    (h : it.behavior it.attempt = .ok v) :
    processQueue rand (fuel + 1) rIdx (it :: rest) =
      (Event.exec it.id :: Event.done it.id v ::
         Event.pace (randomDelay (rand rIdx)) ::
         (processQueue rand fuel (rIdx + 1) rest).1,
       (processQueue rand fuel (rIdx + 1) rest).2) := by
  simp only [processQueue, h]

/-- Unfolding: a head item whose current invocation throws is reinserted
(as its next invocation) and the backoff keyed to the new queue length is
emitted, followed by the pacing delay. -/
theorem processQueue_err (rand : Nat → ℚ) (fuel rIdx : Nat)
    (it : WorkItem α ε) (rest : List (WorkItem α ε)) (e : ε)
    (h : it.behavior it.attempt = .err e) :
    processQueue rand (fuel + 1) rIdx (it :: rest) =
      (Event.exec it.id :: Event.threw it.id e ::
         Event.backoff (exponentialBackoff (rest.length + 1)) ::
         Event.pace (randomDelay (rand rIdx)) ::
         (processQueue rand fuel (rIdx + 1)
           ({ it with attempt := it.attempt + 1 } :: rest)).1,
       (processQueue rand fuel (rIdx + 1)
         ({ it with attempt := it.attempt + 1 } :: rest)).2) := by
  simp only [processQueue, h, List.length_cons]

/-- How the wrapper settles the caller's promise from the operation's
outcome: `resolve` on success, `reject` on error. -/
def settleOf : Outcome α ε → Settlement α ε
  | .ok v => .resolved v
  | .err e => .rejected e

/-- The wrapper closure never throws: whatever the underlying operation
does on its `(n+1)`-th invocation, the thunk completes normally, carrying
the settlement the wrapper performed. -/
theorem wrap_never_throws (id : Nat) (op : Nat → Outcome α ε) (n : Nat) :
    (wrap id op).behavior n = .ok (settleOf (op n)) := by
  simp only [wrap]
  cases h : op n <;> simp [settleOf, h]

/-- Master lemma about a drain of items submitted via `add`: with fuel equal
to the number of items, every item is executed exactly once in submission
order, each settles the caller's promise according to its operation's first
invocation, the `catch` branch never fires (no thrown events, no backoff
delays), one pacing delay follows each execution, and the queue drains. -/
theorem processQueue_wrapped (subs : List (Nat × (Nat → Outcome α ε)))
    (rand : Nat → ℚ) (rIdx : Nat) :
    execOrder (processQueue rand subs.length rIdx (subs.map wrapPair)).1 =
        subs.map Prod.fst ∧
    settlements (processQueue rand subs.length rIdx (subs.map wrapPair)).1 =
        subs.map (fun p => (p.1, settleOf (p.2 0))) ∧
    resolveOrder (processQueue rand subs.length rIdx (subs.map wrapPair)).1 =
        subs.filterMap (fun p =>
          match p.2 0 with
          | .ok _ => some p.1
          | .err _ => none) ∧
    backoffs (processQueue rand subs.length rIdx (subs.map wrapPair)).1 = [] ∧
    throws (processQueue rand subs.length rIdx (subs.map wrapPair)).1 = [] ∧
    (paces (processQueue rand subs.length rIdx (subs.map wrapPair)).1).length =
        subs.length ∧
    (processQueue rand subs.length rIdx (subs.map wrapPair)).2.1 = [] := by
  induction subs generalizing rIdx with
  | nil =>
      simp [processQueue, execOrder, settlements, resolveOrder, backoffs,
        throws, paces]
  | cons p rest ih =>
      have hb : (wrapPair p).behavior (wrapPair p).attempt =
          .ok (settleOf (p.2 0)) := wrap_never_throws p.1 p.2 0
      have heq := processQueue_ok rand rest.length rIdx (wrapPair p)
        (rest.map wrapPair) (settleOf (p.2 0)) hb
      obtain ⟨ih1, ih2, ih3, ih4, ih5, ih6, ih7⟩ := ih (rIdx + 1)
      refine ⟨?_, ?_, ?_, ?_, ?_, ?_, ?_⟩ <;>
        simp only [List.map_cons, List.length_cons, heq, execOrder,
          settlements, resolveOrder, backoffs, throws, paces,
          List.filterMap_cons] <;>
        simp only [execOrder, settlements, resolveOrder, backoffs, throws,
          paces] at ih1 ih2 ih3 ih4 ih5 ih6 ih7
      · simp [ih1, wrapPair, wrap]
      · simp [ih2, wrapPair, wrap]
      · cases hc : p.2 0 with
        | ok v =>
            simp [ih3, wrapPair, wrap, settleOf, hc]
        | err e =>
            simp [ih3, wrapPair, wrap, settleOf, hc]
      · simp [ih4]
      · simp [ih5]
      · simp [ih6]
      · exact ih7

/-! Concrete fixtures for counterexamples and witnesses. -/

/-- A degenerate `Math.random()` stream that always returns `0`. -/
def r0 : Nat → ℚ := fun _ => 0

/-- An operation that throws `7` on every invocation (fails permanently). -/
def constFail : Nat → Outcome Nat Nat := fun _ => .err 7

/-- An operation that returns `42` on every invocation. -/
def constOk : Nat → Outcome Nat Nat := fun _ => .ok 42

/-- A raw (unwrapped) thunk that throws `7` on every invocation; such a
thunk can sit in the queue type-wise but is never produced by `add`. -/
def rawFail : WorkItem Nat Nat :=
  { id := 0, behavior := fun _ => .err 7, attempt := 0 }

/-- A raw thunk that completes normally with `5` on every invocation. -/
def rawOk : WorkItem Nat Nat :=
  { id := 1, behavior := fun _ => .ok 5, attempt := 0 }

/-- A queue state whose `processing` flag is set and whose drain loop is at
the top of its `while` loop. -/
def sBusy : Sys Nat Nat :=
  { queue := [], processing := true, loops := [Phase.ready] }

/-! ## C1 -/

/-- Claim C1, counterexample.  The claim says the promise returned by `add`
never rejects and settles only on a successful execution.  On the code, an
operation submitted via `add` that throws `7` on its first execution makes
the wrapper call `reject(7)`: the error propagates to the caller's promise
as a rejection, refuting the claim at this input. -/
theorem add_promise_can_reject :
    (0, Settlement.rejected 7) ∈
      settlements (processQueue r0 1 0 [wrap 0 constFail]).1 := by
  decide

/-- Claim C1, amended.  The promise returned by `add` settles at the operation's
first (and only) execution: it resolves with the result if the operation
succeeds and rejects with the operation's error if it throws — the queue's
retry mechanism never delays or re-runs it. -/
theorem add_settles_on_first_execution (rand : Nat → ℚ) (fuel rIdx id : Nat)
    (op : Nat → Outcome α ε)
    (rest : List (WorkItem (Settlement α ε) ε)) :
    settlements (processQueue rand (fuel + 1) rIdx (wrap id op :: rest)).1 =
      (id, settleOf (op 0)) ::
        settlements (processQueue rand fuel (rIdx + 1) rest).1 := by
  rw [processQueue_ok rand fuel rIdx (wrap id op) rest (settleOf (op 0))
    (wrap_never_throws id op 0)]
  simp [settlements, List.filterMap_cons, wrap]

/-! ## C2 -/

/-- Claim C2, counterexample.  The claim says an item whose execution fails is
reinserted at the head and re-attempted indefinitely, never dropped and
never surfaced as a failure.  On the code, a permanently failing operation
submitted via `add` is executed exactly once (one exec event even with
ample fuel), the queue is left empty (the item is dropped, not reinserted),
and the failure is surfaced to the caller as a rejection. -/
theorem failing_item_not_reattempted :
    execOrder (processQueue r0 5 0 [wrap 0 constFail]).1 = [0] ∧
    (processQueue r0 5 0 [wrap 0 constFail]).2.1 = [] ∧
    settlements (processQueue r0 5 0 [wrap 0 constFail]).1 =
      [(0, Settlement.rejected 7)] :=
  ⟨by decide, rfl, by decide⟩

/-- Claim C2, amended.  The reinsertion/retry branch of `processQueue` exists but
never fires for items submitted via `add`: every submitted item — failing
ones included — is executed exactly once in submission order, the queue
drains completely (no item is retained for retry), nothing is ever thrown
into the loop, and a failing operation is surfaced to its caller as a
promise rejection rather than retried. -/
theorem failing_added_item_runs_once
    (subs : List (Nat × (Nat → Outcome α ε))) (rand : Nat → ℚ) (rIdx : Nat) :
    execOrder (processQueue rand subs.length rIdx (subs.map wrapPair)).1 =
        subs.map Prod.fst ∧
    (processQueue rand subs.length rIdx (subs.map wrapPair)).2.1 = [] ∧
    throws (processQueue rand subs.length rIdx (subs.map wrapPair)).1 = [] ∧
    settlements (processQueue rand subs.length rIdx (subs.map wrapPair)).1 =
        subs.map (fun p => (p.1, settleOf (p.2 0))) := by
  obtain ⟨h1, h2, _, _, h5, _, h7⟩ := processQueue_wrapped subs rand rIdx
  exact ⟨h1, h7, h5, h2⟩

/-! ## C3 -/

/-- Claim C3, confirmed.  The wrapper closure pushed by `add` catches any error
from the operation and settles the caller's promise without rethrowing, so
the thunk always completes normally; consequently, for any sequence of
items submitted via `add`, the `catch` branch of `processQueue` never fires
(no error is ever thrown into the loop) and `exponentialBackoff` is never
invoked (no backoff delay is ever emitted). -/
theorem wrapper_never_throws_catch_unreachable :
    (∀ (id : Nat) (op : Nat → Outcome α ε) (n : Nat),
        (wrap id op).behavior n = .ok (settleOf (op n))) ∧
    (∀ (subs : List (Nat × (Nat → Outcome α ε))) (rand : Nat → ℚ)
        (rIdx : Nat),
      throws (processQueue rand subs.length rIdx (subs.map wrapPair)).1 =
          [] ∧
      backoffs (processQueue rand subs.length rIdx (subs.map wrapPair)).1 =
          []) := by
  refine ⟨wrap_never_throws, fun subs rand rIdx => ?_⟩
  obtain ⟨_, _, _, h4, h5, _, _⟩ := processQueue_wrapped subs rand rIdx
  exact ⟨h5, h4⟩

/-! ## C4 -/

/-- Claim C4, confirmed.  If a submitted operation throws on its first execution,
the caller's promise rejects with that same error at that first attempt,
the item is permanently removed (the loop continues with `rest` alone, no
reinsertion), and only the random pacing delay — no backoff — separates it
from the next queued item. -/
theorem first_throw_rejects_and_drops (rand : Nat → ℚ) (fuel rIdx id : Nat)
    (op : Nat → Outcome α ε)
    (rest : List (WorkItem (Settlement α ε) ε)) (e : ε)
    (h : op 0 = .err e) :
    processQueue rand (fuel + 1) rIdx (wrap id op :: rest) =
      (Event.exec id :: Event.done id (Settlement.rejected e) ::
         Event.pace (randomDelay (rand rIdx)) ::
         (processQueue rand fuel (rIdx + 1) rest).1,
       (processQueue rand fuel (rIdx + 1) rest).2) := by
  have hb := wrap_never_throws id op 0
  rw [h] at hb
  exact processQueue_ok rand fuel rIdx (wrap id op) rest
    (Settlement.rejected e) hb

/-- Claim C4, witness: `first_throw_rejects_and_drops` at a concrete permanently
failing operation with an empty remainder of the queue. -/
theorem first_throw_rejects_and_drops_witness :
    processQueue r0 1 0 [wrap 0 constFail] =
      (Event.exec 0 :: Event.done 0 (Settlement.rejected 7) ::
         Event.pace (randomDelay (r0 0)) :: (processQueue r0 0 1 []).1,
       (processQueue r0 0 1 []).2) :=
  first_throw_rejects_and_drops r0 0 0 0 constFail [] 7 rfl

/-! ## C5 -/

/-- Claim C5, confirmed.  In every reachable state at most one `processQueue`
invocation is live and at most one work item is executing; a call to `add`
while the `processing` flag is set appends to the queue but spawns no
second loop; and the single drain loop reaches every submitted item — the
newly appended tail included — executing them in queue order. -/
theorem single_loop_single_executor (α ε : Type) :
    (∀ s : Sys α ε, Reach s →
        s.loops.length ≤ 1 ∧
          (s.loops.filter Phase.isRunning).length ≤ 1) ∧
    (∀ (s : Sys α ε) (it : WorkItem α ε), s.processing = true →
        (s.add it).loops = s.loops ∧ (s.add it).queue = s.queue ++ [it]) ∧
    (∀ (subs : List (Nat × (Nat → Outcome α ε))) (rand : Nat → ℚ)
        (rIdx : Nat),
      execOrder (processQueue rand subs.length rIdx (subs.map wrapPair)).1 =
        subs.map Prod.fst) := by
  refine ⟨fun s hs => ?_, fun s it hp => ?_, fun subs rand rIdx =>
    (processQueue_wrapped subs rand rIdx).1⟩
  · have hlen := (inv_reach s hs).1
    exact ⟨hlen, le_trans (List.length_filter_le _ _) hlen⟩
  · simp [Sys.add, hp]

/-- Claim C5, witness: `single_loop_single_executor` at the start state, at a
state whose flag is set, and at a concrete one-element submission list. -/
theorem single_loop_single_executor_witness :
    ((Sys.start : Sys Nat Nat).loops.length ≤ 1 ∧
      ((Sys.start : Sys Nat Nat).loops.filter Phase.isRunning).length ≤ 1) ∧
    ((sBusy.add rawFail).loops = sBusy.loops ∧
      (sBusy.add rawFail).queue = sBusy.queue ++ [rawFail]) ∧
    execOrder (processQueue r0 [(0, constOk)].length 0
        ([(0, constOk)].map wrapPair)).1 = [(0, constOk)].map Prod.fst :=
  ⟨(single_loop_single_executor Nat Nat).1 Sys.start Reach.start,
   (single_loop_single_executor Nat Nat).2.1 sBusy rawFail rfl,
   (single_loop_single_executor Nat Nat).2.2 [(0, constOk)] r0 0⟩

/-! ## C6 -/

/-- Claim C6, confirmed.  `add` appends each item to the tail of the queue, the
drain loop always executes the current head next, and for every sequence
of operations submitted without intervening failures (each succeeds on its
first invocation) the promises resolve in submission order. -/
theorem fifo_resolution_order (α ε : Type) :
    (∀ (s : Sys α ε) (it : WorkItem α ε),
        (s.add it).queue = s.queue ++ [it]) ∧
    (∀ (subs : List (Nat × (Nat → Outcome α ε))) (rand : Nat → ℚ)
        (rIdx : Nat),
      (∀ p ∈ subs, ∃ v, p.2 0 = Outcome.ok v) →
      resolveOrder
          (processQueue rand subs.length rIdx (subs.map wrapPair)).1 =
        subs.map Prod.fst) := by
  constructor
  · intro s it
    unfold Sys.add
    by_cases hp : s.processing = true <;> simp [hp]
  · intro subs rand rIdx h
    rw [(processQueue_wrapped subs rand rIdx).2.2.1]
    induction subs with
    | nil => simp
    | cons p rest ih =>
        obtain ⟨v, hv⟩ := h p (by simp)
        simp only [List.filterMap_cons, List.map_cons, hv]
        rw [ih (fun q hq => h q (by simp [hq]))]

/-- Claim C6, witness: `fifo_resolution_order` at a concrete tail append and a
concrete two-element all-succeeding submission sequence. -/
theorem fifo_resolution_order_witness :
    (sBusy.add rawOk).queue = sBusy.queue ++ [rawOk] ∧
    resolveOrder (processQueue r0 [(3, constOk), (4, constOk)].length 0
        ([(3, constOk), (4, constOk)].map wrapPair)).1 =
      [(3, constOk), (4, constOk)].map Prod.fst := by
  refine ⟨(fifo_resolution_order Nat Nat).1 sBusy rawOk,
    (fifo_resolution_order Nat Nat).2 [(3, constOk), (4, constOk)] r0 0 ?_⟩
  intro p hp
  simp only [List.mem_cons, List.not_mem_nil, or_false] at hp
  rcases hp with rfl | rfl <;> exact ⟨42, rfl⟩

/-! ## C7 -/

/-- Claim C7, confirmed.  Whenever the drain loop's `catch` branch reinserts a
failed thunk at the head, the backoff delay it then waits equals
`2 ^ n * 1000` milliseconds, where `n` is the length of the queue after
the reinsertion (the pending queue length, not a per-item retry count). -/
theorem backoff_after_reinsertion (rand : Nat → ℚ) (fuel rIdx : Nat)
    (it : WorkItem α ε) (rest : List (WorkItem α ε)) (e : ε)
    (h : it.behavior it.attempt = Outcome.err e) :
    (processQueue rand (fuel + 1) rIdx (it :: rest)).1 =
      Event.exec it.id :: Event.threw it.id e ::
        Event.backoff
          (2 ^ ({ it with attempt := it.attempt + 1 } :: rest).length *
            1000) ::
        Event.pace (randomDelay (rand rIdx)) ::
        (processQueue rand fuel (rIdx + 1)
          ({ it with attempt := it.attempt + 1 } :: rest)).1 := by
  rw [processQueue_err rand fuel rIdx it rest e h]
  simp [exponentialBackoff]

/-- Claim C7, witness: `backoff_after_reinsertion` at a concrete raw failing
thunk with an empty remainder, so the post-reinsertion queue length is 1
and the backoff is `2 ^ 1 * 1000 = 2000` milliseconds. -/
theorem backoff_after_reinsertion_witness :
    (processQueue r0 1 0 [rawFail]).1 =
      Event.exec rawFail.id :: Event.threw rawFail.id 7 ::
        Event.backoff
          (2 ^ ({ rawFail with attempt := rawFail.attempt + 1 } ::
              ([] : List (WorkItem Nat Nat))).length * 1000) ::
        Event.pace (randomDelay (r0 0)) ::
        (processQueue r0 0 1
          [{ rawFail with attempt := rawFail.attempt + 1 }]).1 :=
  backoff_after_reinsertion r0 0 0 rawFail [] 7 rfl

/-! ## C8 -/

/-- Claim C8, counterexample.  The claim says the pacing delay is waited only
after successes, not after failures.  On the code `randomDelay` is awaited
after the `try`/`catch`, i.e. on both paths: a drain of a single raw thunk
whose only iteration throws (one thrown event, no success) still emits one
pacing delay, refuting the claim at this input. -/
theorem pace_waited_after_failure :
    throws (processQueue r0 1 0 [rawFail]).1 = [(0, 7)] ∧
    (paces (processQueue r0 1 0 [rawFail]).1).length = 1 := by
  decide

/-- Claim C8, amended.  After every execution — successful or failed — the drain
loop waits a pacing delay of `randomDelay` milliseconds before its next
iteration (after a failure it follows the backoff delay), and for every
`Math.random()` sample in `[0, 1)` that delay lies in `[1500, 3500)`. -/
theorem pace_every_iteration (α ε : Type) :
    (∀ r : ℚ, 0 ≤ r → r < 1 →
        1500 ≤ randomDelay r ∧ randomDelay r < 3500) ∧
    (∀ (rand : Nat → ℚ) (fuel rIdx : Nat) (it : WorkItem α ε)
        (rest : List (WorkItem α ε)) (v : α),
      it.behavior it.attempt = Outcome.ok v →
      paces (processQueue rand (fuel + 1) rIdx (it :: rest)).1 =
        randomDelay (rand rIdx) ::
          paces (processQueue rand fuel (rIdx + 1) rest).1) ∧
    (∀ (rand : Nat → ℚ) (fuel rIdx : Nat) (it : WorkItem α ε)
        (rest : List (WorkItem α ε)) (e : ε),
      it.behavior it.attempt = Outcome.err e →
      paces (processQueue rand (fuel + 1) rIdx (it :: rest)).1 =
        randomDelay (rand rIdx) ::
          paces (processQueue rand fuel (rIdx + 1)
            ({ it with attempt := it.attempt + 1 } :: rest)).1) := by
  refine ⟨fun r h0 h1 => ?_, fun rand fuel rIdx it rest v h => ?_,
    fun rand fuel rIdx it rest e h => ?_⟩
  · unfold randomDelay
    have hl : (0 : ℤ) ≤ ⌊r * 2000⌋ := by
      apply Int.le_floor.mpr
      push_cast
      nlinarith
    have hu : ⌊r * 2000⌋ < 2000 := by
      apply Int.floor_lt.mpr
      push_cast
      nlinarith
    omega
  · rw [processQueue_ok rand fuel rIdx it rest v h]
    simp [paces, List.filterMap_cons]
  · rw [processQueue_err rand fuel rIdx it rest e h]
    simp [paces, List.filterMap_cons]

/-- Claim C8, witness: `pace_every_iteration` at the sample `1/2`, at a concrete
succeeding thunk, and at a concrete throwing thunk. -/
theorem pace_every_iteration_witness :
    (1500 ≤ randomDelay (1 / 2) ∧ randomDelay (1 / 2) < 3500) ∧
    paces (processQueue r0 1 0 [rawOk]).1 =
      randomDelay (r0 0) ::
        paces (processQueue r0 0 1 ([] : List (WorkItem Nat Nat))).1 ∧
    paces (processQueue r0 1 0 [rawFail]).1 =
      randomDelay (r0 0) ::
        paces (processQueue r0 0 1
          [{ rawFail with attempt := rawFail.attempt + 1 }]).1 :=
  ⟨(pace_every_iteration Nat Nat).1 (1 / 2) (by norm_num) (by norm_num),
   (pace_every_iteration Nat Nat).2.1 r0 0 0 rawOk [] 5 rfl,
   (pace_every_iteration Nat Nat).2.2 r0 0 0 rawFail [] 7 rfl⟩

/-! ## C9 -/

/-- Claim C9, counterexample.  The claim says a permanently failing operation
blocks every operation submitted after it indefinitely.  On the code, with
an operation that throws on every invocation submitted first and a
succeeding operation submitted second, both are executed and the second
one's promise resolves: the later item is not blocked, refuting the claim
at this input. -/
theorem later_item_executes_after_permanent_failure :
    execOrder (processQueue r0 2 0 [wrap 0 constFail, wrap 1 constOk]).1 =
      [0, 1] ∧
    resolveOrder
        (processQueue r0 2 0 [wrap 0 constFail, wrap 1 constOk]).1 =
      [1] := by
  decide

/-- Claim C9, amended.  A permanently failing operation does not block the
operations submitted after it: for any submission sequence, every item is
executed in submission order regardless of earlier failures (a failing
item's promise simply rejects at its single attempt) and the queue drains
completely. -/
theorem no_head_of_line_blocking
    (subs : List (Nat × (Nat → Outcome α ε))) (rand : Nat → ℚ)
    (rIdx : Nat) :
    execOrder (processQueue rand subs.length rIdx (subs.map wrapPair)).1 =
        subs.map Prod.fst ∧
    (processQueue rand subs.length rIdx (subs.map wrapPair)).2.1 = [] := by
  obtain ⟨h1, _, _, _, _, _, h7⟩ := processQueue_wrapped subs rand rIdx
  exact ⟨h1, h7⟩

/-! ## C10 -/

/-- Claim C10, confirmed.  From any reachable fully drained state (empty queue,
`processing` flag cleared — which by the invariant also means no live
loop), a submission via `add` sets the flag, enqueues the item, spawns a
fresh drain loop, and that loop's first iteration shifts and executes the
new item — no external trigger is involved. -/
theorem restart_after_drain (s : Sys α ε) (it : WorkItem α ε)
    (hr : Reach s) (hq : s.queue = []) (hp : s.processing = false) :
    s.add it =
      { queue := [it], processing := true, loops := [Phase.ready] } ∧
    Step s (s.add it) ∧
    Step (s.add it)
      { queue := [], processing := true,
        loops := [Phase.running it] } := by
  have hinv := inv_reach s hr
  have hnil : s.loops = [] := by
    by_contra hne
    have := hinv.2.1.mpr hne
    rw [hp] at this
    exact Bool.false_ne_true this
  have hadd : s.add it =
      { queue := [it], processing := true, loops := [Phase.ready] } := by
    simp [Sys.add, hp, hq, hnil]
  refine ⟨hadd, Step.submit s it, ?_⟩
  rw [hadd]
  exact Step.loopShift _ [] [] it [] rfl rfl

/-- Claim C10, witness: a queue is driven through a complete drain cycle (submit,
shift, successful execution, pacing, loop exit) to a reachable drained
state, and `restart_after_drain` is applied there with a fresh item. -/
theorem restart_after_drain_witness :
    ({ queue := [], processing := false,
        loops := [] } : Sys Nat Nat).add rawFail =
      { queue := [rawFail], processing := true,
        loops := [Phase.ready] } ∧
    Step ({ queue := [], processing := false, loops := [] } : Sys Nat Nat)
      (({ queue := [], processing := false,
          loops := [] } : Sys Nat Nat).add rawFail) ∧
    Step (({ queue := [], processing := false,
             loops := [] } : Sys Nat Nat).add rawFail)
      { queue := [], processing := true,
        loops := [Phase.running rawFail] } := by
  have h0 : Reach (Sys.start : Sys Nat Nat) := Reach.start
  have h1 : Reach
      ({ queue := [rawOk], processing := true,
         loops := [Phase.ready] } : Sys Nat Nat) :=
    Reach.step _ _ h0 (Step.submit Sys.start rawOk)
  have h2 : Reach
      ({ queue := [], processing := true,
         loops := [Phase.running rawOk] } : Sys Nat Nat) :=
    Reach.step _ _ h1 (Step.loopShift _ [] [] rawOk [] rfl rfl)
  have h3 : Reach
      ({ queue := [], processing := true,
         loops := [Phase.pacing] } : Sys Nat Nat) :=
    Reach.step _ _ h2 (Step.runOk _ [] [] rawOk 5 rfl rfl)
  have h4 : Reach
      ({ queue := [], processing := true,
         loops := [Phase.ready] } : Sys Nat Nat) :=
    Reach.step _ _ h3 (Step.paceDone _ [] [] rfl)
  have h5 : Reach
      ({ queue := [], processing := false,
         loops := [] } : Sys Nat Nat) :=
    Reach.step _ _ h4 (Step.loopExit _ [] [] rfl rfl)
  exact restart_after_drain _ rawFail h5 rfl rfl

end RequestQueue
